import Mathlib

/-!
Verification of the `ProjectManager` directory-scanning utility
(`project_manager.py`) against its natural-language specification.

The filesystem is modelled as a finite tree of named entries (files carry a
byte size, directories carry an ordered list of children, mirroring the order
in which the host iterates a directory).  Each method of `ProjectManager` is
embedded as a Lean function over this tree:

* `scan_project`  — the statistics walk (`rglob` enumeration + per-entry
  hidden/depth filters, mirroring the source loop body);
* `get_project_tree` / `treeLinesAll` — the indented tree rendering;
* `copy_files` / `delete_files` — the batch operations, with a fallible
  per-file outcome so that the exception path of the source is observable;
* `pm_init` — construction with `Path(...).resolve()` modelled as lexical
  normalisation against a current working directory (the model has no
  symlinks) followed by the existence check;
* `_get_file_type`, `_format_size` — the classification and size-formatting
  helpers.  Python floats divided by 1024 stay exact (an exponent shift), so
  `_format_size` is embedded with exact arithmetic: the running value is
  `num / 2 ^ shift`, and the `%.1f` formatting is round-half-even to one
  decimal, as CPython formats the exact binary value.
-/

/-- A filesystem entry: a file with its byte size, or a directory with its
ordered list of direct children. -/
inductive Entry where
  | file (name : String) (size : Nat)
  | dir (name : String) (children : List Entry)

def entryName : Entry → String
  | Entry.file n _ => n
  | Entry.dir n _ => n

def isDirB : Entry → Bool
  | Entry.file _ _ => false
  | Entry.dir _ _ => true

def isFileB : Entry → Bool
  | Entry.file _ _ => true
  | Entry.dir _ _ => false

def entrySize : Entry → Nat
  | Entry.file _ sz => sz
  | Entry.dir _ _ => 0

/-- A directory entry with zero direct children under raw (unfiltered)
iteration — the `not any(path.iterdir())` test of `scan_project`. -/
def isEmptyDirB : Entry → Bool
  | Entry.dir _ [] => true
  | _ => false

/-- True when the entry is a file whose size strictly exceeds 1 MiB — the
`size > 1024 * 1024` test of `scan_project`. -/
def isLargeFileB : Entry → Bool
  | Entry.file _ sz => 1024 * 1024 < sz
  | Entry.dir _ _ => false

mutual
/-- All entries of the subtree rooted at `e`, paired with their path parts
relative to the scan root (`pre` are the parts leading to `e`'s parent).
This is the `rglob` enumeration together with `path.relative_to(root).parts`. -/
def subEntries (pre : List String) : Entry → List (List String × Entry)
  | Entry.file n sz => [(pre ++ [n], Entry.file n sz)]
  | Entry.dir n cs => (pre ++ [n], Entry.dir n cs) :: subEntriesList (pre ++ [n]) cs

def subEntriesList (pre : List String) : List Entry → List (List String × Entry)
  | [] => []
  | c :: cs => subEntries pre c ++ subEntriesList pre cs
end

/-- The `rglob` enumeration of everything strictly below the project root,
whose direct children are `cs`. -/
def entriesUnder (cs : List Entry) : List (List String × Entry) :=
  subEntriesList [] cs

/-- `s.startswith(DOT)`: the string begins with a dot character. -/
def startsWithDot (s : String) : Bool :=
  match s.toList with
  | [] => false
  | c :: _ => c = '.'

/-- `any(part.startswith(DOT) for part in path.relative_to(root).parts)`. -/
def hiddenParts (parts : List String) : Bool :=
  parts.any startsWithDot

/-- An entry survives both per-entry filters of the scan loop: no hidden
path component, and depth (number of relative parts) at most `maxDepth`. -/
def visitedB (maxDepth : Nat) (re : List String × Entry) : Bool :=
  !hiddenParts re.1 && decide (re.1.length ≤ maxDepth)

/-- ASCII lowercasing, `str.lower()` on the extension strings involved. -/
def lowerStr (s : String) : String :=
  String.mk (s.toList.map Char.toLower)

/-- Index of the last dot in a list of characters, if any (`str.rfind`). -/
def lastDot : List Char → Option Nat
  | [] => none
  | c :: rest =>
    match lastDot rest with
    | some i => some (i + 1)
    | none => if c = '.' then some 0 else none

/-- `PurePath.suffix`: the part of the name from its last dot, provided that
dot is neither the first nor the last character; otherwise the empty
string. -/
def suffixOf (name : String) : String :=
  let cs := name.toList
  match lastDot cs with
  | some i => if 0 < i ∧ i + 1 < cs.length then String.mk (cs.drop i) else ""
  | none => ""

/-- The static `FILE_TYPES` table, in declaration order. -/
def FILE_TYPES : List (String × List String) :=
  [("python", [".py"]),
   ("javascript", [".js", ".ts", ".jsx", ".tsx"]),
   ("web", [".html", ".css", ".scss", ".less"]),
   ("config", [".json", ".yaml", ".yml", ".toml", ".ini", ".cfg"]),
   ("markdown", [".md", ".rst", ".txt"]),
   ("data", [".csv", ".json", ".xml", ".sql"]),
   ("image", [".png", ".jpg", ".jpeg", ".gif", ".svg", ".ico"]),
   ("archive", [".zip", ".tar", ".gz", ".rar", ".7z"])]

/-- The `for file_type, extensions in FILE_TYPES.items()` lookup loop. -/
def lookupType (s : String) : List (String × List String) → String
  | [] => "other"
  | (t, exts) :: rest => if exts.contains s then t else lookupType s rest

/-- `ProjectManager._get_file_type`: lowercase the extension, return the
first category of the table containing it, else "other". -/
def getFileType (suf : String) : String :=
  lookupType (lowerStr suf) FILE_TYPES

/-- The lowercased `path.suffix` of an entry, as computed in the scan loop. -/
def sufLower (e : Entry) : String :=
  lowerStr (suffixOf (entryName e))

/-- The category the scan loop assigns to an entry's name. -/
def fileTypeOf (e : Entry) : String :=
  getFileType (sufLower e)

/-- The statistics record built by `scan_project` (`by_type` and
`by_extension` are the defaultdicts, modelled as total count functions). -/
structure ScanStats where
  total_files : Nat
  total_dirs : Nat
  total_size : Nat
  by_type : String → Nat
  by_extension : String → Nat
  max_depth : Nat
  empty_dirs : List (List String)
  large_files : List (List String × Nat)

def initStats : ScanStats :=
  { total_files := 0, total_dirs := 0, total_size := 0,
    by_type := fun _ => 0, by_extension := fun _ => 0,
    max_depth := 0, empty_dirs := [], large_files := [] }

/-- One iteration of the `for path in self.project_path.rglob(STAR)` loop:
skip hidden, skip over-depth, update `max_depth`, then the file or
directory branch. -/
def scanStep (maxDepth : Nat) (s : ScanStats) (re : List String × Entry) : ScanStats :=
  if hiddenParts re.1 then s
  else if maxDepth < re.1.length then s
  else
    let s1 : ScanStats := { s with max_depth := max s.max_depth re.1.length }
    match re.2 with
    | Entry.file n sz =>
      let suf := lowerStr (suffixOf n)
      { s1 with
        total_files := s1.total_files + 1,
        total_size := s1.total_size + sz,
        by_extension := fun x => if x = suf then s1.by_extension x + 1 else s1.by_extension x,
        by_type := fun x => if x = getFileType suf then s1.by_type x + 1 else s1.by_type x,
        large_files :=
          if 1024 * 1024 < sz then s1.large_files ++ [(re.1, sz)] else s1.large_files }
    | Entry.dir _ cs =>
      { s1 with
        total_dirs := s1.total_dirs + 1,
        empty_dirs := if cs.isEmpty then s1.empty_dirs ++ [re.1] else s1.empty_dirs }

/-- `ProjectManager.scan_project(max_depth)` over a root whose direct
children are `cs`. -/
def scan_project (cs : List Entry) (max_depth : Nat := 20) : ScanStats :=
  (entriesUnder cs).foldl (scanStep max_depth) initStats

/-- Round-half-even of the exact rational `a / b` (with `b > 0`): the
rounding CPython's `%.1f` applies to the exact binary value of a float. -/
def rheNat (a b : Nat) : Nat :=
  let q := a / b
  let r := a % b
  if 2 * r < b then q
  else if b < 2 * r then q + 1
  else if q % 2 = 0 then q else q + 1

/-- Format the exact value `num / 2 ^ shift` with one decimal place
(CPython `f-string` `:.1f` on the exact binary value). -/
def fmt1 (num shift : Nat) : String :=
  let t := rheNat (10 * num) (2 ^ shift)
  toString (t / 10) ++ "." ++ toString (t % 10)

/-- The `for unit in [B, KB, MB, GB]` loop of `_format_size`: the running
float is `num / 2 ^ shift`, and dividing by 1024 adds 10 to `shift`
(exact on floats). -/
def sizeLoop (num shift : Nat) : List String → String
  | [] => fmt1 num shift ++ " TB"
  | u :: us =>
    if num < 1024 * 2 ^ shift then fmt1 num shift ++ " " ++ u
    else sizeLoop num (shift + 10) us

/-- `ProjectManager._format_size`. -/
def format_size (size : Nat) : String :=
  sizeLoop size 0 ["B", "KB", "MB", "GB"]

/-- Code-point lexicographic strict comparison of strings, as Python
compares `str` values. -/
def strLtB : List Char → List Char → Bool
  | _, [] => false
  | [], _ :: _ => true
  | a :: as, b :: bs =>
    if a.toNat < b.toNat then true
    else if b.toNat < a.toNat then false
    else strLtB as bs

def strLeB (a b : String) : Bool := !(strLtB b.toList a.toList)

/-- The sort key ordering of `get_project_tree`:
`key=lambda x: (not x.is_dir(), x.name)` — directories before files, then
by name. -/
def childLE (a b : Entry) : Bool :=
  (isDirB a && !isDirB b) || ((isDirB a == isDirB b) && strLeB (entryName a) (entryName b))

/-- Stable insertion of `a` in front of the first element not below it. -/
def insSorted (le : Entry → Entry → Bool) (a : Entry) : List Entry → List Entry
  | [] => [a]
  | b :: bs => if le a b then a :: b :: bs else b :: insSorted le a bs

/-- Python's stable `sorted(path.iterdir(), key=...)`. -/
def sortChildren (cs : List Entry) : List Entry :=
  cs.foldr (insSorted childLE) []

/-- The `for i, item in enumerate(items)` loop of `_tree`: the last item
gets the corner connector, earlier ones the tee connector; `recd` is the
recursive call on a subdirectory (with its continued indent). -/
def renderItemsWith (recd : String → List Entry → String → List String)
    (pre : String) : List Entry → List String
  | [] => []
  | [Entry.dir n sub] =>
    (pre ++ "└── " ++ n ++ "/") :: recd n sub (pre ++ "    ")
  | [Entry.file n sz] =>
    [pre ++ "└── " ++ n ++ " (" ++ format_size sz ++ ")"]
  | Entry.dir n sub :: rest =>
    ((pre ++ "├── " ++ n ++ "/") :: recd n sub (pre ++ "│   ")) ++
      renderItemsWith recd pre rest
  | Entry.file n sz :: rest =>
    (pre ++ "├── " ++ n ++ " (" ++ format_size sz ++ ")") ::
      renderItemsWith recd pre rest

/-- The recursive `_tree(path, depth, prefix)` helper of
`get_project_tree`, called on a directory named `name` with children `cs`.
`fuel` is `max_depth + 1 - depth`: the source returns when
`depth > max_depth`, i.e. exactly when the fuel runs out, and each
recursive call increments `depth` by one. The hidden-name check is the
source's second guard. -/
def treeDir (fuel : Nat) : String → List Entry → String → List String :=
  Nat.rec (motive := fun _ => String → List Entry → String → List String)
    (fun _ _ _ => [])
    (fun _ ih name cs pre =>
      if startsWithDot name then []
      else renderItemsWith (fun n sub pre2 => ih n sub pre2) pre (sortChildren cs))
    fuel

theorem treeDir_zero (name : String) (cs : List Entry) (pre : String) :
    treeDir 0 name cs pre = [] := rfl

theorem treeDir_succ (f : Nat) (name : String) (cs : List Entry) (pre : String) :
    treeDir (f + 1) name cs pre =
      if startsWithDot name then []
      else renderItemsWith (fun n sub pre2 => treeDir f n sub pre2) pre (sortChildren cs) := rfl

/-- All lines of `get_project_tree(max_depth)`: the root label line
followed by the `_tree` recursion started at depth 0. -/
def treeLinesAll (rootName : String) (cs : List Entry) (max_depth : Nat := 3) : List String :=
  (rootName ++ "/") :: treeDir (max_depth + 1) rootName cs ""

/-- `ProjectManager.get_project_tree`: the joined text. -/
def get_project_tree (rootName : String) (cs : List Entry) (max_depth : Nat := 3) : String :=
  String.intercalate "\n" (treeLinesAll rootName cs max_depth)

/-- A source file matched by `find_files`, as seen by `copy_files`:
its path parts and the outcome of reading/writing its bytes, `none`
standing for an unrecoverable error raised by the copy of that file. -/
structure SrcFile where
  path : List String
  data : Option Nat

/-- `file.name`: the final path component. -/
def baseName (p : List String) : String := p.getLastD ""

/-- Writing `dest_file.write_bytes(...)` into the flat destination
directory: overwrite the entry of the same name if present, else append. -/
def insertFile : List (String × Nat) → String → Nat → List (String × Nat)
  | [], n, b => [(n, b)]
  | (m, c) :: rest, n, b =>
    if m = n then (m, b) :: rest else (m, c) :: insertFile rest n b

/-- The `for file in files` loop of `copy_files`: on the first failing
file the exception escapes (no count is returned) and the destination
keeps the copies made so far. -/
def copyLoop (dest : List (String × Nat)) (count : Nat) :
    List SrcFile → List (String × Nat) × Except Unit Nat
  | [] => (dest, Except.ok count)
  | f :: fs =>
    match f.data with
    | none => (dest, Except.error ())
    | some b => copyLoop (insertFile dest (baseName f.path) b) (count + 1) fs

/-- `ProjectManager.copy_files` given the matched files and the (already
created, flat) destination directory contents. -/
def copy_files (ms : List SrcFile) (dest : List (String × Nat)) :
    List (String × Nat) × Except Unit Nat :=
  copyLoop dest 0 ms

/-- Remove the entry at relative path `p` from a directory forest
(`file.unlink()`). -/
def removePath (cs : List Entry) : List String → List Entry
  | [] => cs
  | [n] => cs.filter (fun e => !(entryName e == n))
  | n :: rest =>
    cs.map (fun e =>
      match e with
      | Entry.dir m sub => if m = n then Entry.dir m (removePath sub rest) else Entry.dir m sub
      | Entry.file m sz => Entry.file m sz)

/-- The `for file in files` loop of `delete_files`: each match carries
whether its `unlink` succeeds; the first failure lets the exception
escape, keeping the deletions made so far. -/
def deleteLoop (fs : List Entry) (count : Nat) :
    List (List String × Bool) → List Entry × Except Unit Nat
  | [] => (fs, Except.ok count)
  | (p, ok) :: rest =>
    if ok then deleteLoop (removePath fs p) (count + 1) rest
    else (fs, Except.error ())

/-- `ProjectManager.delete_files`: zero matches return 0 at once; with
`confirm` requested, a declining collaborator (`decision = false`) returns
0 with nothing deleted; otherwise every match is unlinked in turn. -/
def delete_files (ms : List (List String × Bool)) (confirm : Bool)
    (decision : Bool) (fs : List Entry) : List Entry × Except Unit Nat :=
  if ms.isEmpty then (fs, Except.ok 0)
  else if confirm && !decision then (fs, Except.ok 0)
  else deleteLoop fs 0 ms

/-- A path string as handed to the constructor: whether it is absolute,
and its components (which may include ".", ".." and empty segments). -/
structure RawPath where
  absolute : Bool
  comps : List String

/-- One step of lexical resolution: drop "." and empty segments, let ".."
pop the last component (staying at the root when already there), and
append any other segment. -/
def resolveComp (acc : List String) (c : String) : List String :=
  if c = "." ∨ c = "" then acc
  else if c = ".." then acc.dropLast
  else acc ++ [c]

/-- `Path(p).resolve()` in a symlink-free filesystem: make the path
absolute against the current working directory and normalise it. The
result is a component list from the filesystem root. -/
def resolvePath (cwd : List String) (p : RawPath) : List String :=
  p.comps.foldl resolveComp (if p.absolute then [] else cwd)

/-- Look up the entry at absolute path `p` in the forest of root
children `cs`. -/
def lookupPath (cs : List Entry) : List String → Option Entry
  | [] => none
  | [n] => cs.find? (fun e => entryName e == n)
  | n :: rest =>
    match cs.find? (fun e => entryName e == n) with
    | some (Entry.dir _ sub) => lookupPath sub rest
    | _ => none

/-- `path.exists()` for an absolute component list (the empty list is the
filesystem root itself). -/
def existsPath (cs : List Entry) (p : List String) : Bool :=
  p.isEmpty || (lookupPath cs p).isSome

/-- `ProjectManager.__init__`: resolve the given path, then fail iff the
resolved path does not exist; on success the resolved path is stored as
`self.project_path`. -/
def pm_init (cs : List Entry) (cwd : List String) (p : RawPath) :
    Except String (List String) :=
  let r := resolvePath cwd p
  if existsPath cs r then Except.ok r else Except.error "path does not exist"

/-- A component list is canonical: no ".", no "..", no empty segment. -/
def canonicalL (l : List String) : Bool :=
  l.all (fun c => !(c == ".") && !(c == "..") && !(c == ""))

/-! ### Accumulator lemmas for the scan loop -/

theorem scanStep_total_files (d : Nat) (s : ScanStats) (re : List String × Entry) :
    (scanStep d s re).total_files
      = s.total_files + (if visitedB d re && isFileB re.2 then 1 else 0) := by
  rcases re with ⟨parts, e⟩
  simp only [scanStep, visitedB]
  by_cases h1 : hiddenParts parts
  · simp [h1]
  · by_cases h2 : d < parts.length
    · have h2' : ¬ parts.length ≤ d := Nat.not_le.mpr h2
      cases e <;> simp [h1, h2, h2']
    · have h2' : parts.length ≤ d := Nat.not_lt.mp h2
      cases e <;> simp [h1, h2, h2', isFileB]

theorem scanStep_total_dirs (d : Nat) (s : ScanStats) (re : List String × Entry) :
    (scanStep d s re).total_dirs
      = s.total_dirs + (if visitedB d re && isDirB re.2 then 1 else 0) := by
  rcases re with ⟨parts, e⟩
  simp only [scanStep, visitedB]
  by_cases h1 : hiddenParts parts
  · simp [h1]
  · by_cases h2 : d < parts.length
    · have h2' : ¬ parts.length ≤ d := Nat.not_le.mpr h2
      cases e <;> simp [h1, h2, h2']
    · have h2' : parts.length ≤ d := Nat.not_lt.mp h2
      cases e <;> simp [h1, h2, h2', isDirB]

theorem scanStep_by_type (d : Nat) (s : ScanStats) (re : List String × Entry) (c : String) :
    (scanStep d s re).by_type c
      = s.by_type c + (if visitedB d re && isFileB re.2 && (fileTypeOf re.2 == c) then 1 else 0) := by
  rcases re with ⟨parts, e⟩
  simp only [scanStep, visitedB]
  by_cases h1 : hiddenParts parts
  · simp [h1]
  · by_cases h2 : d < parts.length
    · have h2' : ¬ parts.length ≤ d := Nat.not_le.mpr h2
      cases e <;> simp [h1, h2, h2']
    · have h2' : parts.length ≤ d := Nat.not_lt.mp h2
      cases e with
      | file n sz =>
        simp only [isFileB, fileTypeOf, sufLower, entryName, getFileType]
        by_cases hc : c = lookupType (lowerStr (lowerStr (suffixOf n))) FILE_TYPES
        · simp [h1, h2, h2', hc]
        · have hc' : lookupType (lowerStr (lowerStr (suffixOf n))) FILE_TYPES ≠ c :=
            fun h => hc h.symm
          simp [h1, h2, h2', hc, hc']
      | dir n sub => simp [h1, h2, h2', isFileB]

theorem scanStep_empty_dirs (d : Nat) (s : ScanStats) (re : List String × Entry) :
    (scanStep d s re).empty_dirs
      = s.empty_dirs ++ (if visitedB d re && isEmptyDirB re.2 then [re.1] else []) := by
  rcases re with ⟨parts, e⟩
  simp only [scanStep, visitedB]
  by_cases h1 : hiddenParts parts
  · simp [h1]
  · by_cases h2 : d < parts.length
    · have h2' : ¬ parts.length ≤ d := Nat.not_le.mpr h2
      cases e <;> simp [h1, h2, h2']
    · have h2' : parts.length ≤ d := Nat.not_lt.mp h2
      cases e with
      | file n sz => simp [h1, h2, h2', isEmptyDirB]
      | dir n sub => cases sub <;> simp [h1, h2, h2', isEmptyDirB]

theorem scanStep_large_files (d : Nat) (s : ScanStats) (re : List String × Entry) :
    (scanStep d s re).large_files
      = s.large_files ++
          (if visitedB d re && isLargeFileB re.2 then [(re.1, entrySize re.2)] else []) := by
  rcases re with ⟨parts, e⟩
  simp only [scanStep, visitedB]
  by_cases h1 : hiddenParts parts
  · simp [h1]
  · by_cases h2 : d < parts.length
    · have h2' : ¬ parts.length ≤ d := Nat.not_le.mpr h2
      cases e <;> simp [h1, h2, h2']
    · have h2' : parts.length ≤ d := Nat.not_lt.mp h2
      cases e with
      | file n sz =>
        by_cases h3 : 1024 * 1024 < sz <;> simp [h1, h2, h2', h3, isLargeFileB, entrySize]
      | dir n sub => simp [h1, h2, h2', isLargeFileB]

theorem foldl_scanStep_total_files (d : Nat) (l : List (List String × Entry)) (s : ScanStats) :
    (l.foldl (scanStep d) s).total_files
      = s.total_files + l.countP (fun re => visitedB d re && isFileB re.2) := by
  induction l generalizing s with
  | nil => simp
  | cons re rest ih =>
    simp only [List.foldl_cons, List.countP_cons, ih, scanStep_total_files]
    by_cases h : (visitedB d re && isFileB re.2) = true <;> (simp [h]; try omega)

theorem foldl_scanStep_total_dirs (d : Nat) (l : List (List String × Entry)) (s : ScanStats) :
    (l.foldl (scanStep d) s).total_dirs
      = s.total_dirs + l.countP (fun re => visitedB d re && isDirB re.2) := by
  induction l generalizing s with
  | nil => simp
  | cons re rest ih =>
    simp only [List.foldl_cons, List.countP_cons, ih, scanStep_total_dirs]
    by_cases h : (visitedB d re && isDirB re.2) = true <;> (simp [h]; try omega)

theorem foldl_scanStep_by_type (d : Nat) (l : List (List String × Entry)) (s : ScanStats)
    (c : String) :
    (l.foldl (scanStep d) s).by_type c
      = s.by_type c + l.countP (fun re => visitedB d re && isFileB re.2 && (fileTypeOf re.2 == c)) := by
  induction l generalizing s with
  | nil => simp
  | cons re rest ih =>
    simp only [List.foldl_cons, List.countP_cons, ih, scanStep_by_type]
    by_cases h : (visitedB d re && isFileB re.2 && (fileTypeOf re.2 == c)) = true <;>
      (simp [h]; try omega)

theorem foldl_scanStep_empty_dirs (d : Nat) (l : List (List String × Entry)) (s : ScanStats) :
    (l.foldl (scanStep d) s).empty_dirs
      = s.empty_dirs ++ (l.filter (fun re => visitedB d re && isEmptyDirB re.2)).map Prod.fst := by
  induction l generalizing s with
  | nil => simp
  | cons re rest ih =>
    simp only [List.foldl_cons, List.filter_cons, ih, scanStep_empty_dirs]
    by_cases h : (visitedB d re && isEmptyDirB re.2) = true <;> simp [h]

theorem foldl_scanStep_large_files (d : Nat) (l : List (List String × Entry)) (s : ScanStats) :
    (l.foldl (scanStep d) s).large_files
      = s.large_files ++
          (l.filter (fun re => visitedB d re && isLargeFileB re.2)).map
            (fun re => (re.1, entrySize re.2)) := by
  induction l generalizing s with
  | nil => simp
  | cons re rest ih =>
    simp only [List.foldl_cons, List.filter_cons, ih, scanStep_large_files]
    by_cases h : (visitedB d re && isLargeFileB re.2) = true <;> simp [h]

/-! ### Claims about the scan statistics -/

/-- The first-match behaviour of the `FILE_TYPES` lookup loop, stated via
`List.find?`. -/
theorem lookupType_eq_find (s : String) (l : List (String × List String)) :
    lookupType s l = (((l.find? (fun p => p.2.contains s)).map Prod.fst).getD "other") := by
  induction l with
  | nil => rfl
  | cons p rest ih =>
    rcases p with ⟨t, exts⟩
    by_cases h : s ∈ exts <;> simp [lookupType, List.find?_cons, h, ih]

/-- C5: for every directory tree and every `maxDepth`, `scan_project` returns
`total_files` equal to the number of enumerated files that are non-hidden
(no relative path component starts with a dot) and whose depth (number of
relative path components) is at most `maxDepth`, and `total_dirs` equal to
the number of such directories. -/
theorem scan_total_counts (cs : List Entry) (d : Nat) :
    (scan_project cs d).total_files
        = (entriesUnder cs).countP (fun re => visitedB d re && isFileB re.2)
      ∧ (scan_project cs d).total_dirs
        = (entriesUnder cs).countP (fun re => visitedB d re && isDirB re.2) := by
  constructor
  · simp [scan_project, foldl_scanStep_total_files, initStats]
  · simp [scan_project, foldl_scanStep_total_dirs, initStats]

/-- C6: a scanned file is recorded in `large_files` iff it is visited and its
size strictly exceeds 1,048,576 bytes; in particular a single file of
1,048,577 bytes is recorded and one of exactly 1,048,576 bytes is not. -/
theorem scan_large_files_threshold (cs : List Entry) (d : Nat) (p : List String) (sz : Nat) :
    ((p, sz) ∈ (scan_project cs d).large_files ↔
      ∃ n, (p, Entry.file n sz) ∈ entriesUnder cs ∧ visitedB d (p, Entry.file n sz) = true
        ∧ 1024 * 1024 < sz)
  ∧ (scan_project [Entry.file "big.bin" 1048577] 20).large_files = [(["big.bin"], 1048577)]
  ∧ (scan_project [Entry.file "big.bin" 1048576] 20).large_files = [] := by
  refine ⟨?_, rfl, rfl⟩
  have hchar : (scan_project cs d).large_files
      = ((entriesUnder cs).filter (fun re => visitedB d re && isLargeFileB re.2)).map
          (fun re => (re.1, entrySize re.2)) := by
    simp [scan_project, foldl_scanStep_large_files, initStats]
  rw [hchar]
  constructor
  · intro hmem
    rcases List.mem_map.mp hmem with ⟨re, hre, heq⟩
    rcases List.mem_filter.mp hre with ⟨hmem2, hcond⟩
    rcases re with ⟨p1, e⟩
    cases e with
    | file n sz1 =>
      have hp : p1 = p := (Prod.mk.injEq _ _ _ _).mp heq |>.1
      have hs : sz1 = sz := (Prod.mk.injEq _ _ _ _).mp heq |>.2
      subst hp; subst hs
      simp only [Bool.and_eq_true] at hcond
      obtain ⟨hv, hl⟩ := hcond
      simp only [isLargeFileB, decide_eq_true_eq] at hl
      exact ⟨n, hmem2, hv, hl⟩
    | dir n sub =>
      simp only [Bool.and_eq_true] at hcond
      obtain ⟨hv, hl⟩ := hcond
      simp [isLargeFileB] at hl
  · rintro ⟨n, hmem, hv, hl⟩
    refine List.mem_map.mpr ⟨(p, Entry.file n sz), ?_, rfl⟩
    refine List.mem_filter.mpr ⟨hmem, ?_⟩
    simp [hv, isLargeFileB, hl]

/-- C1 (amended): a visited directory is recorded in `empty_dirs` exactly
when its raw (unfiltered) child list is empty; since hidden children count
as raw entries, a directory whose direct entries are all hidden is NOT
flagged, while a directory with zero direct entries is. -/
theorem empty_dirs_raw_iteration (cs : List Entry) (d : Nat) :
    ((scan_project cs d).empty_dirs
        = ((entriesUnder cs).filter (fun re => visitedB d re && isEmptyDirB re.2)).map Prod.fst)
      ∧ (∀ n sub, isEmptyDirB (Entry.dir n sub) = sub.isEmpty)
      ∧ (scan_project [Entry.dir "e" []] 20).empty_dirs = [["e"]] := by
  refine ⟨?_, ?_, rfl⟩
  · simp [scan_project, foldl_scanStep_empty_dirs, initStats]
  · intro n sub; cases sub <;> rfl

/-- C1 counterexample: the claim says a directory whose direct entries are
all hidden is still flagged empty; but for a root containing the directory
`d` whose only entry is the hidden file `.h`, `d` is not recorded in
`empty_dirs` (raw `iterdir` sees the hidden child). -/
theorem empty_dirs_all_hidden_counterexample :
    ¬ (["d"] ∈ (scan_project [Entry.dir "d" [Entry.file ".h" 0]] 20).empty_dirs) := by
  decide

/-- C10: `_get_file_type` returns the first category of the `FILE_TYPES`
table (in declaration order) whose extension list contains the lowercased
extension; `.json`, listed under both `config` and `data`, classifies as
`config`; and the scan's `by_type` counts are computed through the same
classification. -/
theorem file_type_first_match (s c : String) (cs : List Entry) (d : Nat) :
    (getFileType s
        = (((FILE_TYPES.find? (fun p => p.2.contains (lowerStr s))).map Prod.fst).getD "other"))
      ∧ getFileType ".json" = "config"
      ∧ ((FILE_TYPES.filter (fun p => p.2.contains ".json")).map Prod.fst = ["config", "data"])
      ∧ ((scan_project cs d).by_type c
          = (entriesUnder cs).countP
              (fun re => visitedB d re && isFileB re.2 && (fileTypeOf re.2 == c))) := by
  refine ⟨lookupType_eq_find _ _, rfl, rfl, ?_⟩
  simp [scan_project, foldl_scanStep_by_type, initStats]

/-! ### Claims about the helpers and the batch operations -/

/-- C7: `_format_size` divides by 1024 across units B, KB, MB, GB, returning
at the first unit where the remaining value is below 1024 formatted with one
decimal place, and falls through to TB with no upper bound; in particular
512 → "512.0 B", 1024 → "1.0 KB", 1,048,576 → "1.0 MB",
1,073,741,824 → "1.0 GB". -/
theorem format_size_units (n m : Nat) (hn : n < 1024) (hm : 1024 ^ 4 ≤ m) :
    (format_size n = fmt1 n 0 ++ " B"
      ∧ format_size m = fmt1 m 40 ++ " TB")
  ∧ format_size 512 = "512.0 B"
  ∧ format_size 1024 = "1.0 KB"
  ∧ format_size 1048576 = "1.0 MB"
  ∧ format_size 1073741824 = "1.0 GB" := by
  refine ⟨⟨?_, ?_⟩, rfl, rfl, rfl, rfl⟩
  · simp only [format_size, sizeLoop, pow_zero, Nat.mul_one, if_pos hn]
    rw [String.append_assoc]
    rfl
  · have hpow : (1024 : Nat) ^ 4 = 1099511627776 := by norm_num
    rw [hpow] at hm
    have h0 : ¬ m < 1024 := by omega
    have h1 : ¬ m < 1048576 := by omega
    have h2 : ¬ m < 1073741824 := by omega
    have h3 : ¬ m < 1099511627776 := by omega
    simp [format_size, sizeLoop, h0, h1, h2, h3]

/-- Witness for `format_size_units` at 512 bytes and 2 TiB. -/
theorem format_size_units_witness :
    ((512 < 1024 ∧ 1024 ^ 4 ≤ 2199023255552)
  ∧ ((format_size 512 = fmt1 512 0 ++ " B"
      ∧ format_size 2199023255552 = fmt1 2199023255552 40 ++ " TB")
     ∧ format_size 512 = "512.0 B"
     ∧ format_size 1024 = "1.0 KB"
     ∧ format_size 1048576 = "1.0 MB"
     ∧ format_size 1073741824 = "1.0 GB")) :=
  ⟨⟨by norm_num, by norm_num⟩, format_size_units 512 2199023255552 (by norm_num) (by norm_num)⟩

/-- C9: `delete_files` returns 0 and touches nothing whenever the pattern
matches zero files, and likewise whenever confirmation is requested and the
confirmation collaborator declines. -/
theorem delete_files_no_mutation (ms : List (List String × Bool))
    (confirm decision : Bool) (fs : List Entry) :
    (delete_files [] confirm decision fs = (fs, Except.ok 0))
  ∧ (delete_files ms true false fs = (fs, Except.ok 0)) := by
  constructor
  · rfl
  · cases ms with
    | nil => rfl
    | cons a rest => simp [delete_files]

/-- The copy loop up to the first failing file: every earlier copy lands in
the destination, and the failure escapes as the error. -/
theorem copyLoop_error (pre : List SrcFile) (f : SrcFile) (post : List SrcFile)
    (dest : List (String × Nat)) (k : Nat)
    (hpre : ∀ g ∈ pre, g.data.isSome) (hf : f.data = none) :
    copyLoop dest k (pre ++ f :: post)
      = (pre.foldl (fun dst g => insertFile dst (baseName g.path) (g.data.getD 0)) dest,
         Except.error ()) := by
  induction pre generalizing dest k with
  | nil => simp [copyLoop, hf]
  | cons g rest ih =>
    have hg : g.data.isSome := hpre g (by simp)
    obtain ⟨b, hb⟩ := Option.isSome_iff_exists.mp hg
    simp [copyLoop, hb, ih _ _ (fun x hx => hpre x (by simp [hx])), List.foldl_cons]

/-- The delete loop up to the first failing unlink. -/
theorem deleteLoop_error (dpre : List (List String × Bool)) (q : List String)
    (dpost : List (List String × Bool)) (fs : List Entry) (k : Nat)
    (hdpre : ∀ x ∈ dpre, x.2 = true) :
    deleteLoop fs k (dpre ++ (q, false) :: dpost)
      = (dpre.foldl (fun acc x => removePath acc x.1) fs, Except.error ()) := by
  induction dpre generalizing fs k with
  | nil => simp [deleteLoop]
  | cons x rest ih =>
    have hx : x.2 = true := hdpre x (by simp)
    rcases x with ⟨p, ok⟩
    simp only at hx
    subst hx
    simp [deleteLoop, ih _ _ (fun y hy => hdpre y (by simp [hy])), List.foldl_cons]

/-- C3 (amended): when `copy_files` or `delete_files` hits its first
unrecoverable error after successfully processing the files before it, the
remaining batch stops, the error propagates (no count is returned), and the
files already processed stay copied respectively deleted. -/
theorem batch_error_aborts (pre : List SrcFile) (f : SrcFile) (post : List SrcFile)
    (dest : List (String × Nat))
    (dpre : List (List String × Bool)) (q : List String) (dpost : List (List String × Bool))
    (fs : List Entry) (decision : Bool)
    (hpre : ∀ g ∈ pre, g.data.isSome) (hf : f.data = none)
    (hdpre : ∀ x ∈ dpre, x.2 = true) :
    copy_files (pre ++ f :: post) dest
        = (pre.foldl (fun dst g => insertFile dst (baseName g.path) (g.data.getD 0)) dest,
           Except.error ())
  ∧ delete_files (dpre ++ (q, false) :: dpost) false decision fs
        = (dpre.foldl (fun acc x => removePath acc x.1) fs, Except.error ()) := by
  constructor
  · exact copyLoop_error pre f post dest 0 hpre hf
  · have hne : ¬ (dpre ++ (q, false) :: dpost).isEmpty = true := by
      cases dpre <;> simp
    simp only [delete_files, hne, Bool.false_and, if_neg, Bool.not_eq_true, if_false]
    exact deleteLoop_error dpre q dpost fs 0 hdpre

/-- Witness for `batch_error_aborts`: one successful copy before a failing
one, and one successful unlink before a failing one. -/
theorem batch_error_aborts_witness :
    ((∀ g ∈ [(⟨["a"], some 7⟩ : SrcFile)], g.data.isSome)
      ∧ (SrcFile.mk ["b"] none).data = none
      ∧ (∀ x ∈ [((["u"], true) : List String × Bool)], x.2 = true))
  ∧ (copy_files ([⟨["a"], some 7⟩] ++ ⟨["b"], none⟩ :: [⟨["c"], some 9⟩]) []
        = ([(⟨["a"], some 7⟩ : SrcFile)].foldl
             (fun dst g => insertFile dst (baseName g.path) (g.data.getD 0)) [],
           Except.error ())
     ∧ delete_files ([(["u"], true)] ++ (["v"], false) :: []) false true
          [Entry.file "u" 1, Entry.file "v" 2]
        = ([((["u"], true) : List String × Bool)].foldl (fun acc x => removePath acc x.1)
             [Entry.file "u" 1, Entry.file "v" 2],
           Except.error ())) :=
  ⟨⟨by simp, rfl, by simp⟩,
   batch_error_aborts [⟨["a"], some 7⟩] ⟨["b"], none⟩ [⟨["c"], some 9⟩] []
     [(["u"], true)] ["v"] [] [Entry.file "u" 1, Entry.file "v" 2] true
     (by simp) rfl (by simp)⟩

/-- C3 counterexample: after one successful copy, a failing second copy makes
`copy_files` surface the error — it does not return the partial count 1 the
claim promises. -/
theorem copy_files_error_counterexample :
    (copy_files [⟨["a"], some 7⟩, ⟨["b"], none⟩] []).2 = Except.error ()
  ∧ ¬ ((copy_files [⟨["a"], some 7⟩, ⟨["b"], none⟩] []).2 = Except.ok 1) := by
  refine ⟨rfl, fun h => ?_⟩
  exact Except.noConfusion h

/-- C2 (amended): the tree rendering skips only the CONTENTS of hidden
directories — recursing into a directory whose name starts with a dot
produces no lines — while a hidden entry that is a direct child of a
rendered directory still receives its own line (hidden files are listed,
and a hidden directory contributes its name line but nothing beneath it). -/
theorem tree_hidden_handling (f : Nat) (name : String) (cs : List Entry) (pre : String)
    (h : startsWithDot name = true) :
    treeDir f name cs pre = []
  ∧ treeLinesAll "p" [Entry.dir ".git" [Entry.file "cfg" 3], Entry.file "a.py" 9] 3
      = ["p/", "├── .git/", "└── a.py (9.0 B)"] := by
  constructor
  · cases f with
    | zero => rfl
    | succ f => simp [treeDir_succ, h]
  · rfl

/-- Witness for `tree_hidden_handling` on the hidden directory name `.x`. -/
theorem tree_hidden_handling_witness :
    startsWithDot ".x" = true
  ∧ (treeDir 4 ".x" [Entry.file "a" 1] "" = []
     ∧ treeLinesAll "p" [Entry.dir ".git" [Entry.file "cfg" 3], Entry.file "a.py" 9] 3
        = ["p/", "├── .git/", "└── a.py (9.0 B)"]) :=
  ⟨rfl, tree_hidden_handling 4 ".x" [Entry.file "a" 1] "" rfl⟩

/-- C2 counterexample: the rendered tree of a root containing only the
hidden file `.secret` contains a line for that hidden entry, contradicting
the claim that hidden files are never listed. -/
theorem tree_hidden_line_counterexample :
    "└── .secret (5.0 B)" ∈ treeLinesAll "p" [Entry.file ".secret" 5] 3
  ∧ treeLinesAll "p" [Entry.file ".secret" 5] 3 = ["p/", "└── .secret (5.0 B)"] := by
  exact ⟨by decide, rfl⟩

/-! ### Claim about construction and path resolution -/

theorem canonicalL_iff (l : List String) :
    canonicalL l = true ↔ ∀ x ∈ l, x ≠ "." ∧ x ≠ ".." ∧ x ≠ "" := by
  simp [canonicalL, List.all_eq_true, and_assoc]

theorem canonicalL_resolveComp (acc : List String) (c : String)
    (h : canonicalL acc = true) : canonicalL (resolveComp acc c) = true := by
  rw [canonicalL_iff] at h ⊢
  simp only [resolveComp]
  by_cases h1 : c = "." ∨ c = ""
  · simpa [h1] using h
  · by_cases h2 : c = ".."
    · simp only [h1, h2, if_true, if_false]
      exact fun x hx => h x (List.dropLast_subset _ hx)
    · simp only [h1, h2, if_false]
      intro x hx
      rcases List.mem_append.mp hx with hx1 | hx2
      · exact h x hx1
      · rcases List.mem_singleton.mp hx2 with rfl
        push_neg at h1
        exact ⟨h1.1, h2, h1.2⟩

/-- Lexical resolution only ever removes ".", ".." and empty segments and
appends plain ones, so from a canonical working directory it yields a
canonical absolute component list. -/
theorem canonicalL_resolvePath (cwd : List String) (p : RawPath)
    (hcwd : canonicalL cwd = true) : canonicalL (resolvePath cwd p) = true := by
  have hstart : canonicalL (if p.absolute then [] else cwd) = true := by
    by_cases h : p.absolute
    · simp [h, canonicalL]
    · simpa [h] using hcwd
  unfold resolvePath
  generalize (if p.absolute then [] else cwd) = acc at hstart ⊢
  induction p.comps generalizing acc with
  | nil => simpa using hstart
  | cons c rest ih =>
    simp only [List.foldl_cons]
    exact ih _ (canonicalL_resolveComp _ _ hstart)

theorem isDirB_of_isEmptyDirB (e : Entry) (h : isEmptyDirB e = true) : isDirB e = true := by
  cases e with
  | file n sz => simp [isEmptyDirB] at h
  | dir n sub => rfl

/-- C8: construction fails iff the resolved path does not exist (no other
construction-time validation); on success the stored root is exactly the
resolved path, which is canonical — absolute by construction with no ".",
".." or empty components; and every relative path the scan subsequently
reports denotes an entry enumerated relative to that root. -/
theorem init_resolves_and_validates (fs : List Entry) (cwd : List String) (p : RawPath)
    (r : List String) (cs : List Entry) (d : Nat) (ps : List String)
    (hcwd : canonicalL cwd = true) :
    ((∃ r0, pm_init fs cwd p = Except.ok r0) ↔ existsPath fs (resolvePath cwd p) = true)
  ∧ (pm_init fs cwd p = Except.ok r → r = resolvePath cwd p)
  ∧ canonicalL (resolvePath cwd p) = true
  ∧ (ps ∈ (scan_project cs d).empty_dirs →
        ∃ e, (ps, e) ∈ entriesUnder cs ∧ isDirB e = true) := by
  refine ⟨?_, ?_, canonicalL_resolvePath cwd p hcwd, ?_⟩
  · constructor
    · rintro ⟨r0, hr⟩
      by_contra hex
      simp only [pm_init, Bool.not_eq_true] at hr hex
      rw [if_neg (by simp [hex])] at hr
      exact Except.noConfusion hr
    · intro hex
      exact ⟨resolvePath cwd p, by simp [pm_init, hex]⟩
  · intro hr
    by_cases hex : existsPath fs (resolvePath cwd p) = true
    · simp only [pm_init, if_pos hex] at hr
      exact (Except.ok.injEq _ _).mp hr |>.symm
    · simp only [pm_init, if_neg hex] at hr
      exact Except.noConfusion hr
  · intro hmem
    have hchar : (scan_project cs d).empty_dirs
        = ((entriesUnder cs).filter (fun re => visitedB d re && isEmptyDirB re.2)).map Prod.fst := by
      simp [scan_project, foldl_scanStep_empty_dirs, initStats]
    rw [hchar] at hmem
    rcases List.mem_map.mp hmem with ⟨re, hre, heq⟩
    rcases List.mem_filter.mp hre with ⟨hmem2, hcond⟩
    simp only [Bool.and_eq_true] at hcond
    refine ⟨re.2, ?_, isDirB_of_isEmptyDirB _ hcond.2⟩
    rw [← heq]
    exact hmem2

/-- Witness for `init_resolves_and_validates`: a relative path with "." and
".." segments resolved against the canonical working directory `/home`. -/
theorem init_resolves_and_validates_witness :
    canonicalL ["home"] = true
  ∧ (((∃ r0, pm_init [Entry.dir "home" [Entry.dir "proj" []]] ["home"]
          ⟨false, ["proj", ".", "x", ".."]⟩ = Except.ok r0)
        ↔ existsPath [Entry.dir "home" [Entry.dir "proj" []]]
            (resolvePath ["home"] ⟨false, ["proj", ".", "x", ".."]⟩) = true)
     ∧ (pm_init [Entry.dir "home" [Entry.dir "proj" []]] ["home"]
          ⟨false, ["proj", ".", "x", ".."]⟩ = Except.ok ["home", "proj"] →
        ["home", "proj"] = resolvePath ["home"] ⟨false, ["proj", ".", "x", ".."]⟩)
     ∧ canonicalL (resolvePath ["home"] ⟨false, ["proj", ".", "x", ".."]⟩) = true
     ∧ (["emp"] ∈ (scan_project [Entry.dir "emp" []] 20).empty_dirs →
          ∃ e, (["emp"], e) ∈ entriesUnder [Entry.dir "emp" []] ∧ isDirB e = true)) :=
  ⟨rfl,
   init_resolves_and_validates [Entry.dir "home" [Entry.dir "proj" []]] ["home"]
     ⟨false, ["proj", ".", "x", ".."]⟩ ["home", "proj"] [Entry.dir "emp" []] 20 ["emp"] rfl⟩

/-! ### Claim about copy followed by re-scan -/

/-- The names present in the flat destination directory. -/
def dKeys (d : List (String × Nat)) : List String := d.map Prod.fst

theorem dKeys_insertFile (d : List (String × Nat)) (n : String) (b : Nat) :
    dKeys (insertFile d n b) = if n ∈ dKeys d then dKeys d else dKeys d ++ [n] := by
  induction d with
  | nil => simp [insertFile, dKeys]
  | cons mc rest ih =>
    rcases mc with ⟨m, c⟩
    by_cases h : m = n
    · subst h
      simp [insertFile, dKeys]
    · have hmn : ¬ n = m := fun hh => h hh.symm
      simp only [insertFile, if_neg h, dKeys, List.map_cons]
      simp only [dKeys] at ih
      rw [ih]
      by_cases h2 : n ∈ rest.map Prod.fst <;>
        simp [h2, hmn, List.mem_cons]

/-- Accumulate overwrite-or-append name insertions, as the copy loop does. -/
def mergeKeys (K : List String) : List String → List String
  | [] => K
  | n :: L => mergeKeys (if n ∈ K then K else K ++ [n]) L

theorem dKeys_copyLoop (ms : List SrcFile) (dest : List (String × Nat)) (k : Nat)
    (hms : ∀ g ∈ ms, g.data.isSome) :
    dKeys (copyLoop dest k ms).1 = mergeKeys (dKeys dest) (ms.map (fun g => baseName g.path)) := by
  induction ms generalizing dest k with
  | nil => simp [copyLoop, mergeKeys]
  | cons g rest ih =>
    obtain ⟨b, hb⟩ := Option.isSome_iff_exists.mp (hms g (by simp))
    simp only [copyLoop, hb, List.map_cons, mergeKeys]
    rw [ih _ _ (fun x hx => hms x (by simp [hx])), dKeys_insertFile]

theorem mergeKeys_nodup_mem (L K : List String) (hK : K.Nodup) :
    (mergeKeys K L).Nodup ∧ ∀ x, (x ∈ mergeKeys K L ↔ x ∈ K ∨ x ∈ L) := by
  induction L generalizing K with
  | nil => simp [mergeKeys, hK]
  | cons n L ih =>
    by_cases h : n ∈ K
    · have hrec := ih K hK
      simp only [mergeKeys, if_pos h]
      refine ⟨hrec.1, fun x => ?_⟩
      rw [hrec.2 x]
      constructor
      · rintro (hx | hx)
        · exact Or.inl hx
        · exact Or.inr (List.mem_cons_of_mem _ hx)
      · rintro (hx | hx)
        · exact Or.inl hx
        · rcases List.mem_cons.mp hx with rfl | hx2
          · exact Or.inl h
          · exact Or.inr hx2
    · have hK2 : (K ++ [n]).Nodup := by
        simp [List.nodup_append, hK, h]
      have hrec := ih (K ++ [n]) hK2
      simp only [mergeKeys, if_neg h]
      refine ⟨hrec.1, fun x => ?_⟩
      rw [hrec.2 x]
      simp [List.mem_append, List.mem_cons, or_assoc, or_comm, or_left_comm]

/-- Inserting the base names one by one yields each distinct base name once,
so the count of surviving names is the count over the deduplicated list. -/
theorem countP_mergeKeys_nil (L : List String) (p : String → Bool) :
    (mergeKeys [] L).countP p = L.dedup.countP p := by
  have h := mergeKeys_nodup_mem L [] (by simp)
  have hperm : List.Perm (mergeKeys [] L) L.dedup := by
    rw [List.perm_ext_iff_of_nodup h.1 (List.nodup_dedup L)]
    intro a
    rw [h.2 a]
    simp [List.mem_dedup]
  exact hperm.countP_eq p

theorem entriesUnder_files (d : List (String × Nat)) :
    entriesUnder (d.map (fun nb => Entry.file nb.1 nb.2))
      = d.map (fun nb => ([nb.1], Entry.file nb.1 nb.2)) := by
  induction d with
  | nil => rfl
  | cons nb rest ih =>
    simp only [entriesUnder, subEntriesList, subEntries, List.map_cons] at ih ⊢
    rw [ih]
    rfl

/-- Re-scanning a flat directory of files counts exactly the entries whose
name is not hidden (depth is 1, well within the default limit of 20). -/
theorem scan_flat_total_files (d : List (String × Nat)) :
    (scan_project (d.map (fun nb => Entry.file nb.1 nb.2)) 20).total_files
      = (dKeys d).countP (fun n => !startsWithDot n) := by
  have h := foldl_scanStep_total_files 20 (entriesUnder (d.map (fun nb => Entry.file nb.1 nb.2)))
    initStats
  simp only [scan_project]
  rw [h, entriesUnder_files]
  simp only [initStats, Nat.zero_add, List.countP_map, dKeys]
  congr 1
  funext nb
  simp [Function.comp, visitedB, hiddenParts, isFileB]

theorem copyLoop_ok (ms : List SrcFile) (dest : List (String × Nat)) (k : Nat)
    (hms : ∀ g ∈ ms, g.data.isSome) :
    (copyLoop dest k ms).2 = Except.ok (k + ms.length) := by
  induction ms generalizing dest k with
  | nil => simp [copyLoop]
  | cons g rest ih =>
    obtain ⟨b, hb⟩ := Option.isSome_iff_exists.mp (hms g (by simp))
    simp only [copyLoop, hb]
    rw [ih _ _ (fun x hx => hms x (by simp [hx]))]
    congr 1
    simp
    omega

/-- C4 (amended): a fully successful `copy_files` into an initially empty
destination returns the number of matches, names every destination entry by
the base name of some match (subdirectory structure is not preserved), and a
re-scan of the destination counts the DISTINCT non-hidden base names among
the matches — same-name matches silently overwrite one another, and copies
with hidden base names are skipped by the re-scan. -/
theorem copy_rescan_distinct_basenames (ms : List SrcFile)
    (hms : ∀ g ∈ ms, g.data.isSome) :
    ((scan_project ((copy_files ms []).1.map (fun nb => Entry.file nb.1 nb.2)) 20).total_files
        = (ms.map (fun g => baseName g.path)).dedup.countP (fun n => !startsWithDot n))
  ∧ (copy_files ms []).2 = Except.ok ms.length
  ∧ (∀ nb ∈ (copy_files ms []).1, nb.1 ∈ ms.map (fun g => baseName g.path)) := by
  refine ⟨?_, ?_, ?_⟩
  · rw [scan_flat_total_files]
    have hk := dKeys_copyLoop ms [] 0 hms
    simp only [copy_files]
    rw [hk]
    simpa using countP_mergeKeys_nil (ms.map (fun g => baseName g.path)) (fun n => !startsWithDot n)
  · simpa using copyLoop_ok ms [] 0 hms
  · intro nb hnb
    have hmem : nb.1 ∈ dKeys (copyLoop [] 0 ms).1 := List.mem_map.mpr ⟨nb, hnb, rfl⟩
    rw [dKeys_copyLoop ms [] 0 hms] at hmem
    have h := (mergeKeys_nodup_mem (ms.map (fun g => baseName g.path)) [] (by simp)).2 nb.1
    simp only [dKeys, List.map_nil] at hmem
    rcases h.mp hmem with h2 | h2
    · exact absurd h2 (List.not_mem_nil _)
    · exact h2

/-- Witness for `copy_rescan_distinct_basenames`: two matches colliding on
`x.py` plus one hidden base name `.env`. -/
theorem copy_rescan_distinct_basenames_witness :
    (∀ g ∈ [(⟨["a", "x.py"], some 1⟩ : SrcFile), ⟨["b", "x.py"], some 2⟩, ⟨[".env"], some 3⟩],
        g.data.isSome)
  ∧ (((scan_project ((copy_files [(⟨["a", "x.py"], some 1⟩ : SrcFile), ⟨["b", "x.py"], some 2⟩,
          ⟨[".env"], some 3⟩] []).1.map (fun nb => Entry.file nb.1 nb.2)) 20).total_files
        = ([(⟨["a", "x.py"], some 1⟩ : SrcFile), ⟨["b", "x.py"], some 2⟩,
            ⟨[".env"], some 3⟩].map (fun g => baseName g.path)).dedup.countP
            (fun n => !startsWithDot n))
     ∧ (copy_files [(⟨["a", "x.py"], some 1⟩ : SrcFile), ⟨["b", "x.py"], some 2⟩,
          ⟨[".env"], some 3⟩] []).2
        = Except.ok ([(⟨["a", "x.py"], some 1⟩ : SrcFile), ⟨["b", "x.py"], some 2⟩,
            ⟨[".env"], some 3⟩] : List SrcFile).length
     ∧ (∀ nb ∈ (copy_files [(⟨["a", "x.py"], some 1⟩ : SrcFile), ⟨["b", "x.py"], some 2⟩,
          ⟨[".env"], some 3⟩] []).1,
          nb.1 ∈ [(⟨["a", "x.py"], some 1⟩ : SrcFile), ⟨["b", "x.py"], some 2⟩,
            ⟨[".env"], some 3⟩].map (fun g => baseName g.path))) :=
  ⟨by simp,
   copy_rescan_distinct_basenames
     [⟨["a", "x.py"], some 1⟩, ⟨["b", "x.py"], some 2⟩, ⟨[".env"], some 3⟩] (by simp)⟩

/-- C4 counterexample: two matches named `a/x.py` and `b/x.py` copy to a
single destination file, so the re-scan counts 1, not the 2 matches the
claim promises; likewise a matched hidden base name `.env` is copied but the
re-scan counts 0, not 1. -/
theorem copy_rescan_counterexample :
    (copy_files [⟨["a", "x.py"], some 1⟩, ⟨["b", "x.py"], some 2⟩] []).2 = Except.ok 2
  ∧ (scan_project ((copy_files [⟨["a", "x.py"], some 1⟩, ⟨["b", "x.py"], some 2⟩] []).1.map
        (fun nb => Entry.file nb.1 nb.2)) 20).total_files = 1
  ∧ (copy_files [⟨[".env"], some 3⟩] []).2 = Except.ok 1
  ∧ (scan_project ((copy_files [⟨[".env"], some 3⟩] []).1.map
        (fun nb => Entry.file nb.1 nb.2)) 20).total_files = 0 :=
  ⟨rfl, rfl, rfl, rfl⟩
